import Mathlib

/-!
Verification development for the real-time render core of
`src/macos_audiounit.c` (a pull-based 440 Hz sine oscillator).

Embedding choices:
* `Float64` phase arithmetic is idealised as exact rational arithmetic (`ℚ`),
  and the `Float32` sine samples as real numbers (`ℝ`), following the design
  contract, which is stated "to within floating-point rounding".
* The C callback mutates `context->generator` and stores samples into the
  caller-supplied interleaved buffer `ioData->mBuffers[0].mData`.  We model one
  invocation as a function from the context and the scalar arguments to the
  updated context, the ordered list of buffer stores performed (each a pair of
  a slot index `channels * i + j` and the value stored there), and the
  returned `OSStatus` (`noErr = 0`).
* The unused callback arguments (`ioActionFlags`, `inTimeStamp`,
  `inBusNumber`) are kept as explicit parameters so that independence from
  them is a provable statement rather than a modelling artefact.
-/

namespace MacosAudioUnit

/-- Embeds the `AudioContext` struct: `Float64 generator; Float64 samplerate;
int channels; AudioUnit audioUnit;`.  The opaque `AudioUnit` handle is
modelled as a bare natural number token. -/
structure AudioContext where
  generator : ℚ
  samplerate : ℚ
  channels : ℕ
  audioUnit : ℕ
deriving DecidableEq

/-- `const Float64 frequency = 440.0;` — fixed in the callback body. -/
def frequency : ℚ := 440

/-- One loop iteration's phase update from the callback body:
`generator += 1.0; if (generator > samplePeriod) generator -= samplePeriod;` -/
def stepGen (P g : ℚ) : ℚ :=
  if g + 1 > P then g + 1 - P else g + 1

/-- Instrumentation of the same branch: 1 when the conditional subtraction
of `samplePeriod` fires on this iteration, 0 otherwise. -/
def wrapStep (P g : ℚ) : ℕ :=
  if g + 1 > P then 1 else 0

/-- Phase after `n` loop iterations starting from `g`. -/
def genAfter (P : ℚ) : ℚ → ℕ → ℚ
  | g, 0 => g
  | g, n + 1 => genAfter P (stepGen P g) n

/-- Number of conditional subtractions performed over `n` loop iterations
starting from `g`. -/
def wrapCount (P : ℚ) : ℚ → ℕ → ℕ
  | _, 0 => 0
  | g, n + 1 => wrapStep P g + wrapCount P (stepGen P g) n

/-- `Float32 sample = sinf(2 * M_PI * generator / samplePeriod);`
idealised over the reals. -/
noncomputable def sampleValue (P g : ℚ) : ℝ :=
  Real.sin (2 * Real.pi * (g : ℝ) / (P : ℝ))

/-- The inner channel loop: `for (j=0; j<channels; ++j)
data[channels * i + j] = sample;` as the ordered list of stores of frame `i`. -/
noncomputable def frameWrites (ch i : ℕ) (s : ℝ) : List (ℕ × ℝ) :=
  (List.range ch).map fun j => (ch * i + j, s)

/-- The frame loop of the callback, started at frame index `i` with phase `g`
and `n` frames left: returns the final phase and the ordered list of buffer
stores. -/
noncomputable def renderFrom (P : ℚ) (ch : ℕ) : ℕ → ℚ → ℕ → ℚ × List (ℕ × ℝ)
  | _, g, 0 => (g, [])
  | i, g, n + 1 =>
    let g1 := stepGen P g
    let r := renderFrom P ch (i + 1) g1 n
    (r.1, frameWrites ch i (sampleValue P g1) ++ r.2)

/-- Result of one callback invocation: the updated `AudioContext`, the ordered
list of buffer stores, and the returned `OSStatus`. -/
structure CallbackResult where
  ctx : AudioContext
  writes : List (ℕ × ℝ)
  status : Int

/-- Embeds `OSStatus callback(void *inRefCon, AudioUnitRenderActionFlags
*ioActionFlags, const AudioTimeStamp *inTimeStamp, UInt32 inBusNumber,
UInt32 inNumberFrames, AudioBufferList *ioData)` from
`src/macos_audiounit.c` lines 31-64.  The function reads `generator`,
`samplerate` and `channels` from the context, runs the frame loop, stores the
final phase back into `context->generator` and returns `noErr` (0). -/
noncomputable def callback (inRefCon : AudioContext) (ioActionFlags : ℕ)
    (inTimeStamp : ℚ) (inBusNumber : ℕ) (inNumberFrames : ℕ) : CallbackResult :=
  let samplePeriod := inRefCon.samplerate / frequency
  let r := renderFrom samplePeriod inRefCon.channels 0 inRefCon.generator inNumberFrames
  ⟨{ inRefCon with generator := r.1 }, r.2, 0⟩

/-- Back-to-back callback invocations, threading the context through and
concatenating the produced sample streams (the stored values, in order). -/
noncomputable def runCalls (f : ℕ) (t : ℚ) (b : ℕ) :
    AudioContext → List ℕ → AudioContext × List ℝ
  | ctx, [] => (ctx, [])
  | ctx, n :: ns =>
    let r := callback ctx f t b n
    let rest := runCalls f t b r.ctx ns
    (rest.1, r.writes.map Prod.snd ++ rest.2)

/-- The sample stream (stored values in order, without slot indices) that the
frame loop produces over `n` frames from phase `g`, each frame's value
repeated once per channel. -/
noncomputable def sampleList (P : ℚ) (ch : ℕ) : ℚ → ℕ → List ℝ
  | _, 0 => []
  | g, n + 1 =>
    List.replicate ch (sampleValue P (stepGen P g)) ++ sampleList P ch (stepGen P g) n

/-- Modelled from the spec (section 4.2 Algorithm): "increment `phase` by 1;
if `phase > P`, subtract `P`".  Spec-side phase advance for one frame, to be
compared with the code-side `stepGen`. -/
def specAdvance (P g : ℚ) : ℚ :=
  if g + 1 > P then g + 1 - P else g + 1

/-- Modelled from the spec: the phase after processing `k` frames in order,
each advanced by `specAdvance`. -/
def specPhase (P : ℚ) : ℚ → ℕ → ℚ
  | g, 0 => g
  | g, k + 1 => specPhase P (specAdvance P g) k

/-- Modelled from the spec: "Compute the instantaneous sample value as a sine
of `2π · phase / P`". -/
noncomputable def specSample (P g : ℚ) : ℝ :=
  Real.sin (2 * Real.pi * (g : ℝ) / (P : ℝ))

/-- The concrete scenario context of the spec (and of `main`):
`sampleRate = 44100`, `channelCount = 2`, initial `phase = 0`. -/
def ctx44 : AudioContext := ⟨0, 44100, 2, 0⟩

/-! ### General lemmas about the frame loop -/

theorem genAfter_succ (P g : ℚ) (n : ℕ) :
    genAfter P g (n + 1) = genAfter P (stepGen P g) n := rfl

theorem genAfter_add (P g : ℚ) (m n : ℕ) :
    genAfter P g (m + n) = genAfter P (genAfter P g m) n := by
  induction m generalizing g with
  | zero => rw [Nat.zero_add]; rfl
  | succ m ih =>
    rw [Nat.succ_add]
    exact ih (stepGen P g)

theorem wrapCount_add (P g : ℚ) (m n : ℕ) :
    wrapCount P g (m + n) = wrapCount P g m + wrapCount P (genAfter P g m) n := by
  induction m generalizing g with
  | zero => simp [wrapCount, genAfter]
  | succ m ih =>
    rw [Nat.succ_add]
    show wrapStep P g + wrapCount P (stepGen P g) (m + n) = _
    rw [ih (stepGen P g)]
    simp [wrapCount, genAfter, Nat.add_assoc]

theorem genAfter_of_le (P : ℚ) (n : ℕ) :
    ∀ g : ℚ, g + n ≤ P → genAfter P g n = g + n := by
  induction n with
  | zero => intro g _; simp [genAfter]
  | succ n ih =>
    intro g h
    push_cast at h
    have h1 : ¬ g + 1 > P := by
      push_neg
      have : (0 : ℚ) ≤ n := by positivity
      linarith
    have hstep : stepGen P g = g + 1 := by simp [stepGen, h1]
    rw [genAfter_succ, hstep, ih (g + 1) (by linarith)]
    push_cast
    ring

theorem wrapCount_of_le (P : ℚ) (n : ℕ) :
    ∀ g : ℚ, g + n ≤ P → wrapCount P g n = 0 := by
  induction n with
  | zero => intro g _; rfl
  | succ n ih =>
    intro g h
    push_cast at h
    have h1 : ¬ g + 1 > P := by
      push_neg
      have : (0 : ℚ) ≤ n := by positivity
      linarith
    have hstep : stepGen P g = g + 1 := by simp [stepGen, h1]
    show wrapStep P g + wrapCount P (stepGen P g) n = 0
    rw [hstep, ih (g + 1) (by linarith)]
    simp [wrapStep, h1]

theorem stepGen_bounds (P g : ℚ) (hP : 1 ≤ P) (h0 : 0 ≤ g) (h1 : g ≤ P) :
    0 ≤ stepGen P g ∧ stepGen P g ≤ P := by
  unfold stepGen
  split <;> constructor <;> linarith

theorem genAfter_bounds (P : ℚ) (hP : 1 ≤ P) (n : ℕ) :
    ∀ g : ℚ, 0 ≤ g → g ≤ P → 0 ≤ genAfter P g n ∧ genAfter P g n ≤ P := by
  induction n with
  | zero => intro g h0 h1; exact ⟨h0, h1⟩
  | succ n ih =>
    intro g h0 h1
    rw [genAfter_succ]
    obtain ⟨s0, s1⟩ := stepGen_bounds P g hP h0 h1
    exact ih (stepGen P g) s0 s1

theorem renderFrom_fst (P : ℚ) (ch : ℕ) (n : ℕ) :
    ∀ (i : ℕ) (g : ℚ), (renderFrom P ch i g n).1 = genAfter P g n := by
  induction n with
  | zero => intro i g; rfl
  | succ n ih => intro i g; simp [renderFrom, genAfter_succ, ih]

theorem renderFrom_map_snd (P : ℚ) (ch : ℕ) (n : ℕ) :
    ∀ (i : ℕ) (g : ℚ),
      (renderFrom P ch i g n).2.map Prod.snd = sampleList P ch g n := by
  induction n with
  | zero => intro i g; rfl
  | succ n ih =>
    intro i g
    simp only [renderFrom, sampleList, List.map_append, ih]
    congr 1
    simp [frameWrites, List.map_map, Function.comp_def]

theorem sampleList_add (P : ℚ) (ch : ℕ) (m n : ℕ) :
    ∀ g : ℚ, sampleList P ch g (m + n) =
      sampleList P ch g m ++ sampleList P ch (genAfter P g m) n := by
  induction m with
  | zero => intro g; simp [sampleList, genAfter]
  | succ m ih =>
    intro g
    rw [Nat.succ_add]
    show List.replicate ch _ ++ sampleList P ch (stepGen P g) (m + n) = _
    rw [ih (stepGen P g)]
    simp [sampleList, genAfter_succ, List.append_assoc]

theorem renderFrom_snd (P : ℚ) (ch : ℕ) (hch : 0 < ch) (n : ℕ) :
    ∀ (i : ℕ) (g : ℚ), (renderFrom P ch i g n).2 =
      (List.range (ch * n)).map
        fun m => (ch * i + m, sampleValue P (genAfter P g (m / ch + 1))) := by
  induction n with
  | zero => intro i g; simp [renderFrom]
  | succ n ih =>
    intro i g
    have hsplit : ch * (n + 1) = ch + ch * n := by ring
    rw [hsplit, List.range_add, List.map_append]
    simp only [renderFrom, ih (i + 1) (stepGen P g)]
    congr 1
    · apply List.map_congr_left
      intro j hj
      rw [List.mem_range] at hj
      simp [frameWrites, Nat.div_eq_of_lt hj, genAfter_succ, genAfter]
    · rw [List.map_map]
      apply List.map_congr_left
      intro m _
      have hdiv : (ch + m) / ch = m / ch + 1 := by
        rw [Nat.add_comm ch m, Nat.add_div_right m hch]
      simp only [Function.comp_apply, hdiv, Prod.mk.injEq]
      exact ⟨by ring, by rw [genAfter_succ P g (m / ch + 1)]⟩

theorem snd_mem_renderFrom (P : ℚ) (ch : ℕ) (n : ℕ) :
    ∀ (i : ℕ) (g : ℚ) (p : ℕ × ℝ),
      p ∈ (renderFrom P ch i g n).2 → ∃ q : ℚ, p.2 = sampleValue P q := by
  induction n with
  | zero => intro i g p hp; simp [renderFrom] at hp
  | succ n ih =>
    intro i g p hp
    simp only [renderFrom, List.mem_append] at hp
    rcases hp with hp | hp
    · simp only [frameWrites, List.mem_map, List.mem_range] at hp
      obtain ⟨j, _, hj⟩ := hp
      exact ⟨stepGen P g, by rw [← hj]⟩
    · exact ih (i + 1) (stepGen P g) p hp

theorem specPhase_eq_genAfter (P : ℚ) (k : ℕ) :
    ∀ g : ℚ, specPhase P g k = genAfter P g k := by
  induction k with
  | zero => intro g; rfl
  | succ k ih => intro g; exact ih (specAdvance P g)

/-! ### Claim theorems -/

/-- Claim C6: a callback invocation with a zero frame count leaves the
`AudioContext` (in particular its phase) unchanged and performs no buffer
store. -/
theorem claim_C6 (ctx : AudioContext) (f : ℕ) (t : ℚ) (b : ℕ) :
    (callback ctx f t b 0).ctx = ctx ∧ (callback ctx f t b 0).writes = [] :=
  ⟨rfl, rfl⟩

/-- Claim C8: a callback invocation modifies only the `generator` (phase)
field of the `AudioContext`; the sample rate, channel count and audio-unit
handle are unchanged on return. -/
theorem claim_C8 (ctx : AudioContext) (f : ℕ) (t : ℚ) (b n : ℕ) :
    (callback ctx f t b n).ctx.samplerate = ctx.samplerate ∧
    (callback ctx f t b n).ctx.channels = ctx.channels ∧
    (callback ctx f t b n).ctx.audioUnit = ctx.audioUnit :=
  ⟨rfl, rfl, rfl⟩

/-- Claim C10: the callback result (updated context, buffer stores, status)
depends only on the context and the frame count; the action flags, timestamp
and bus number arguments never influence it. -/
theorem claim_C10 (ctx : AudioContext) (f f' : ℕ) (t t' : ℚ) (b b' : ℕ)
    (n : ℕ) : callback ctx f t b n = callback ctx f' t' b' n := rfl

/-- Claim C2 counterexample: the claim asserts phase lands back in
[0, P) for every state with phase in [0, P).  It fails twice over.  With
sampleRate 440 (P = 1), phase 0 and one frame, the stored phase is exactly
P = 1, outside [0, P) — the wrap condition `generator > samplePeriod` is
strict.  With sampleRate 220 (P = 1/2 < 1), phase 0 and two frames, the
stored phase is 1, strictly above the period: one subtraction per frame
cannot catch up when P < 1. -/
theorem claim_C2_counterexample :
    (0 ≤ (AudioContext.mk 0 440 1 0).generator ∧
      (AudioContext.mk 0 440 1 0).generator <
        (AudioContext.mk 0 440 1 0).samplerate / frequency ∧
      ¬ (callback (AudioContext.mk 0 440 1 0) 0 0 0 1).ctx.generator <
        (AudioContext.mk 0 440 1 0).samplerate / frequency) ∧
    (0 ≤ (AudioContext.mk 0 220 1 0).generator ∧
      (AudioContext.mk 0 220 1 0).generator <
        (AudioContext.mk 0 220 1 0).samplerate / frequency ∧
      (AudioContext.mk 0 220 1 0).samplerate / frequency <
        (callback (AudioContext.mk 0 220 1 0) 0 0 0 2).ctx.generator) := by
  have h1 : (callback (AudioContext.mk 0 440 1 0) 0 0 0 1).ctx.generator
      = genAfter (440 / frequency) 0 1 := by
    simp only [callback]
    rw [renderFrom_fst]
  have h2 : (callback (AudioContext.mk 0 220 1 0) 0 0 0 2).ctx.generator
      = genAfter (220 / frequency) 0 2 := by
    simp only [callback]
    rw [renderFrom_fst]
  rw [h1, h2]
  norm_num [genAfter, stepGen, frequency]

/-- Claim C2 amended: provided the period P = sampleRate/440 is at least 1
(sampleRate ≥ 440) and the starting phase lies in the closed interval
[0, P], the phase stored back by the callback lies in [0, P] again.  The
strict wrap test makes the value P itself attainable, so the closed interval
replaces [0, P), and P ≥ 1 is required because a single subtraction per
frame cannot keep up when P < 1. -/
theorem claim_C2_amended (ctx : AudioContext) (f : ℕ) (t : ℚ) (b n : ℕ)
    (hP : 1 ≤ ctx.samplerate / frequency)
    (h0 : 0 ≤ ctx.generator) (h1 : ctx.generator ≤ ctx.samplerate / frequency) :
    0 ≤ (callback ctx f t b n).ctx.generator ∧
    (callback ctx f t b n).ctx.generator ≤ ctx.samplerate / frequency := by
  have hb := genAfter_bounds (ctx.samplerate / frequency) hP n ctx.generator h0 h1
  have hg : (callback ctx f t b n).ctx.generator
      = genAfter (ctx.samplerate / frequency) ctx.generator n := by
    simp only [callback]
    rw [renderFrom_fst]
  rw [hg]
  exact hb

/-- Witness for C2 amended: the concrete session context (44100 Hz, phase 0)
with a 5-frame request satisfies the hypotheses, and the resulting phase lies
in [0, P]. -/
theorem claim_C2_witness :
    (1 ≤ ctx44.samplerate / frequency ∧ 0 ≤ ctx44.generator ∧
      ctx44.generator ≤ ctx44.samplerate / frequency) ∧
    (0 ≤ (callback ctx44 0 0 0 5).ctx.generator ∧
      (callback ctx44 0 0 0 5).ctx.generator ≤ ctx44.samplerate / frequency) :=
  ⟨⟨by norm_num [ctx44, frequency], by norm_num [ctx44],
    by norm_num [ctx44, frequency]⟩,
   claim_C2_amended ctx44 0 0 0 5 (by norm_num [ctx44, frequency])
     (by norm_num [ctx44]) (by norm_num [ctx44, frequency])⟩

/-- Claim C1: chunking invariance.  Running the callback once per element of
a list of frame counts, threading the context through and concatenating the
produced sample streams, yields the same final context and the same sample
stream as one callback invocation requesting the total frame count. -/
theorem claim_C1 (ctx : AudioContext) (f : ℕ) (t : ℚ) (b : ℕ) (ns : List ℕ)
    (hsr : 0 < ctx.samplerate) (hch : 0 < ctx.channels) :
    (runCalls f t b ctx ns).1 = (callback ctx f t b ns.sum).ctx ∧
    (runCalls f t b ctx ns).2 = (callback ctx f t b ns.sum).writes.map Prod.snd := by
  clear hsr hch
  induction ns generalizing ctx with
  | nil =>
    exact ⟨rfl, rfl⟩
  | cons n ns ih =>
    obtain ⟨ih1, ih2⟩ := ih (callback ctx f t b n).ctx
    constructor
    · show (runCalls f t b (callback ctx f t b n).ctx ns).1 = _
      rw [ih1]
      simp only [callback, renderFrom_fst, List.sum_cons]
      rw [genAfter_add]
    · show (callback ctx f t b n).writes.map Prod.snd
          ++ (runCalls f t b (callback ctx f t b n).ctx ns).2 = _
      rw [ih2]
      simp only [callback, renderFrom_map_snd, renderFrom_fst, List.sum_cons]
      rw [sampleList_add]

/-- Witness for C1: the concrete session context with the request sequence
[1, 2] produces the same stream and final context as a single 3-frame
request. -/
theorem claim_C1_witness :
    (0 < ctx44.samplerate ∧ 0 < ctx44.channels) ∧
    ((runCalls 0 0 0 ctx44 [1, 2]).1 = (callback ctx44 0 0 0 ([1, 2].sum)).ctx ∧
      (runCalls 0 0 0 ctx44 [1, 2]).2
        = (callback ctx44 0 0 0 ([1, 2].sum)).writes.map Prod.snd) :=
  ⟨⟨by norm_num [ctx44], by norm_num [ctx44]⟩,
   claim_C1 ctx44 0 0 0 [1, 2] (by norm_num [ctx44]) (by norm_num [ctx44])⟩

/-- Claim C3: the buffer stores of one callback invocation are exactly the
reference algorithm of the spec: slot `k` (for `k < N * channelCount`, in
increasing order, i.e. all channels of frame 0, then frame 1, ...) receives
the sine of `2π · phase / P` where the phase is the spec-side phase after
`k / channelCount + 1` single-increment-and-wrap steps. -/
theorem claim_C3 (ctx : AudioContext) (f : ℕ) (t : ℚ) (b n : ℕ)
    (hch : 0 < ctx.channels) :
    (callback ctx f t b n).writes =
      (List.range (n * ctx.channels)).map fun k =>
        (k, specSample (ctx.samplerate / frequency)
              (specPhase (ctx.samplerate / frequency) ctx.generator
                (k / ctx.channels + 1))) := by
  simp only [callback]
  rw [renderFrom_snd _ _ hch, Nat.mul_comm ctx.channels n]
  apply List.map_congr_left
  intro k _
  simp only [Nat.mul_zero, Nat.zero_mul, Nat.zero_add, Prod.mk.injEq, true_and]
  rw [specPhase_eq_genAfter]
  rfl

/-- Witness for C3: the concrete session context with a 1-frame request. -/
theorem claim_C3_witness :
    0 < ctx44.channels ∧
    (callback ctx44 0 0 0 1).writes =
      (List.range (1 * ctx44.channels)).map fun k =>
        (k, specSample (ctx44.samplerate / frequency)
              (specPhase (ctx44.samplerate / frequency) ctx44.generator
                (k / ctx44.channels + 1))) :=
  ⟨by norm_num [ctx44], claim_C3 ctx44 0 0 0 1 (by norm_num [ctx44])⟩

/-- Claim C7: every value the callback stores into the buffer lies in
[-1, 1], the range of the sine. -/
theorem claim_C7 (ctx : AudioContext) (f : ℕ) (t : ℚ) (b n : ℕ) (p : ℕ × ℝ)
    (hp : p ∈ (callback ctx f t b n).writes) :
    -1 ≤ p.2 ∧ p.2 ≤ 1 := by
  simp only [callback] at hp
  obtain ⟨q, hq⟩ := snd_mem_renderFrom (ctx.samplerate / frequency)
    ctx.channels n 0 ctx.generator p hp
  rw [hq]
  exact ⟨Real.neg_one_le_sin _, Real.sin_le_one _⟩

/-- Witness for C7: the first store of a 1-frame request on the concrete
session context is in [-1, 1]. -/
theorem claim_C7_witness :
    ((0, sampleValue (44100 / 440) (stepGen (44100 / 440) 0))
        ∈ (callback ctx44 0 0 0 1).writes) ∧
    (-1 ≤ ((0 : ℕ), sampleValue (44100 / 440) (stepGen (44100 / 440) 0)).2 ∧
      ((0 : ℕ), sampleValue (44100 / 440) (stepGen (44100 / 440) 0)).2 ≤ 1) := by
  have hmem : ((0 : ℕ), sampleValue (44100 / 440) (stepGen (44100 / 440) 0))
      ∈ (callback ctx44 0 0 0 1).writes := by
    simp [callback, renderFrom, frameWrites, ctx44, frequency]
  exact ⟨hmem, claim_C7 ctx44 0 0 0 1 _ hmem⟩

/-- Claim C9: for positive sample rate and channel count and any frame count,
the callback returns the success status 0 and its stores cover exactly the
slots 0, 1, ..., N * channelCount - 1, in order: the requested output is
always fully populated and there is no failure branch. -/
theorem claim_C9 (ctx : AudioContext) (f : ℕ) (t : ℚ) (b n : ℕ)
    (hsr : 0 < ctx.samplerate) (hch : 0 < ctx.channels) :
    (callback ctx f t b n).status = 0 ∧
    (callback ctx f t b n).writes.map Prod.fst = List.range (n * ctx.channels) := by
  refine ⟨rfl, ?_⟩
  simp only [callback]
  rw [renderFrom_snd _ _ hch, Nat.mul_comm n ctx.channels, List.map_map]
  simp [Function.comp_def]

/-- Witness for C9: the concrete session context with a 3-frame request
returns status 0 and populates slots 0..5. -/
theorem claim_C9_witness :
    (0 < ctx44.samplerate ∧ 0 < ctx44.channels) ∧
    ((callback ctx44 0 0 0 3).status = 0 ∧
      (callback ctx44 0 0 0 3).writes.map Prod.fst
        = List.range (3 * ctx44.channels)) :=
  ⟨⟨by norm_num [ctx44], by norm_num [ctx44]⟩,
   claim_C9 ctx44 0 0 0 3 (by norm_num [ctx44]) (by norm_num [ctx44])⟩

/-! ### Concrete computations for the 44100 Hz scenario -/

theorem genAfter_one (P g : ℚ) : genAfter P g 1 = stepGen P g := rfl

theorem wrapCount_one (P g : ℚ) : wrapCount P g 1 = wrapStep P g := rfl

theorem callbackGen (ctx : AudioContext) (f : ℕ) (t : ℚ) (b n : ℕ) :
    (callback ctx f t b n).ctx.generator
      = genAfter (ctx.samplerate / frequency) ctx.generator n := by
  simp only [callback]
  rw [renderFrom_fst]

theorem gen44_100 : genAfter ((44100 : ℚ) / 440) 0 100 = 100 := by
  rw [genAfter_of_le ((44100 : ℚ) / 440) 100 0 (by norm_num)]
  norm_num

theorem step44_100 : stepGen ((44100 : ℚ) / 440) 100 = 17 / 22 := by
  simp only [stepGen]
  rw [if_pos (by norm_num : (100 : ℚ) + 1 > 44100 / 440)]
  norm_num

theorem gen44_101 : genAfter ((44100 : ℚ) / 440) 0 101 = 17 / 22 := by
  rw [show (101 : ℕ) = 100 + 1 from rfl, genAfter_add, gen44_100, genAfter_one,
    step44_100]

theorem wrap44_101 : wrapCount ((44100 : ℚ) / 440) 0 101 = 1 := by
  rw [show (101 : ℕ) = 100 + 1 from rfl, wrapCount_add,
    wrapCount_of_le ((44100 : ℚ) / 440) 100 0 (by norm_num), gen44_100,
    wrapCount_one]
  simp only [wrapStep]
  rw [if_pos (by norm_num : (100 : ℚ) + 1 > 44100 / 440)]

theorem callback44_100_ctx :
    (callback ctx44 0 0 0 100).ctx = AudioContext.mk 100 44100 2 0 := by
  have h2 : (callback ctx44 0 0 0 100).ctx.generator = 100 := by
    rw [callbackGen]
    exact gen44_100
  rw [← h2]
  rfl

/-- Claim C5: in the concrete scenario (44100 Hz, 440 Hz, P = 2205/22),
requesting 101 frames from phase 0 performs exactly one subtraction of the
period, and the resulting phase (also as stored by the callback) is 17/22,
inside [0, P). -/
theorem claim_C5 :
    wrapCount (ctx44.samplerate / frequency) ctx44.generator 101 = 1 ∧
    (callback ctx44 0 0 0 101).ctx.generator = 17 / 22 ∧
    (0 : ℚ) ≤ 17 / 22 ∧ (17 : ℚ) / 22 < ctx44.samplerate / frequency := by
  refine ⟨wrap44_101, ?_, by norm_num, by norm_num [ctx44, frequency]⟩
  rw [callbackGen]
  exact gen44_101

/-- Claim C4 counterexample: the claim asserts the phase stored after the
100-frame request and one further 1-frame request is approximately 101.
In fact the wrap fires on frame 101 (101 > P = 2205/22), so the stored phase
is 101 - P = 17/22, more than 100 away from the claimed value. -/
theorem claim_C4_counterexample :
    (callback ctx44 0 0 0 100).ctx.generator = 100 ∧
    100 < |(callback (callback ctx44 0 0 0 100).ctx 0 0 0 1).ctx.generator
            - 101| := by
  constructor
  · rw [callbackGen]
    exact gen44_100
  · rw [callback44_100_ctx, callbackGen, genAfter_one]
    have hs : stepGen ((AudioContext.mk 100 44100 2 0).samplerate / frequency)
        (AudioContext.mk 100 44100 2 0).generator = 17 / 22 := step44_100
    rw [hs]
    rw [show (17 : ℚ) / 22 - 101 = -(2205 / 22) by norm_num, abs_neg,
      abs_of_pos (by norm_num : (0 : ℚ) < 2205 / 22)]
    norm_num

/-- Claim C4 amended: in the concrete scenario, after the 100-frame request
the phase is exactly 100 (no wrap yet, 100 < P); the further 1-frame request
wraps, storing phase 101 - P = 17/22, and the sample written for that frame
equals sin(2π·101/P) — identical, by periodicity of the sine, to
sin(2π·(101-P)/P) — with both channel slots of the frame holding that same
value. -/
theorem claim_C4_amended :
    (callback ctx44 0 0 0 100).ctx.generator = 100 ∧
    (callback (callback ctx44 0 0 0 100).ctx 0 0 0 1).ctx.generator
        = 101 - ctx44.samplerate / frequency ∧
    (callback (callback ctx44 0 0 0 100).ctx 0 0 0 1).writes =
      [(0, Real.sin (2 * Real.pi * 101 / ((ctx44.samplerate / frequency : ℚ) : ℝ))),
       (1, Real.sin (2 * Real.pi * 101 / ((ctx44.samplerate / frequency : ℚ) : ℝ)))] := by
  have key : sampleValue ((44100 : ℚ) / 440) (17 / 22)
      = Real.sin (2 * Real.pi * 101 / (((44100 : ℚ) / 440 : ℚ) : ℝ)) := by
    simp only [sampleValue]
    push_cast
    rw [show (2 : ℝ) * Real.pi * 101 / (44100 / 440)
        = 2 * Real.pi * (17 / 22) / (44100 / 440) + 2 * Real.pi by ring]
    rw [Real.sin_add_two_pi]
  refine ⟨?_, ?_, ?_⟩
  · rw [callbackGen]
    exact gen44_100
  · rw [callback44_100_ctx, callbackGen, genAfter_one]
    have hs : stepGen ((AudioContext.mk 100 44100 2 0).samplerate / frequency)
        (AudioContext.mk 100 44100 2 0).generator = 17 / 22 := step44_100
    rw [hs]
    norm_num [ctx44, frequency]
  · rw [callback44_100_ctx]
    simp only [callback, renderFrom, frameWrites, ctx44, frequency]
    rw [step44_100, key]
    simp [List.range_succ]

end MacosAudioUnit
